import Mathlib

/-!
Verification development for the MindV voice-conversation client.

The definitions below are a shallow embedding of the real-time audio
streaming core of the repository: the playback scheduler state kept in
`nextStartTimeRef` / `sourcesRef` / `isAISpeaking` and the handlers of the
live-session `onmessage` callback (`src/App.tsx`, `src/unnamed/part_001`),
the capture-side sample conversion (`proc.onaudioprocess`), the transcript
turn buffer, session teardown (`stopConversation`) and session persistence
(`saveCurrentSession`).  Wall-clock times are modelled as exact rationals;
JavaScript typed-array conversions are modelled with explicit truncation
and reduction modulo 2^16.  The PCM text codec lives in
`utils/audioUtils`, a module referenced by the source but absent from the
repository; those functions are modelled from the specification and are
marked as such in their doc comments.
-/

namespace MindV

/-- Connection status enum from `src/types.ts`. -/
inductive ConnectionStatus where
  | DISCONNECTED
  | CONNECTING
  | CONNECTED
  | ERROR
  deriving DecidableEq, Repr

/-- Modelled from the spec: conversion of one little-endian pair of bytes to
a signed 16-bit integer, the per-sample step of `int16BytesToFloat` /
`decodeAudioData` in the missing `utils/audioUtils` module: "interprets byte
sequence as little-endian 16-bit signed samples". -/
def int16OfLE (lo hi : Nat) : Int :=
  let v : Int := (lo : Int) + 256 * (hi : Int)
  let m := v % 65536
  if m < 32768 then m else m - 65536

/-- Modelled from the spec: the sample list of `int16BytesToFloat` in the
missing `utils/audioUtils` module, "converts each to float32 by
`s / 32768`". -/
def bytesToSamples : List Nat → List ℚ
  | lo :: hi :: rest => ((int16OfLE lo hi : ℚ) / 32768) :: bytesToSamples rest
  | _ => []

/-- A decoded inbound clip (`DecodedClip` in the spec's data model). -/
structure DecodedClip where
  samples : List ℚ
  sampleRate : ℚ
  channels : Nat
  deriving DecidableEq, Repr

/-- Derived clip duration: `len(samples) / sampleRate`. -/
def DecodedClip.durationSeconds (c : DecodedClip) : ℚ :=
  (c.samples.length : ℚ) / c.sampleRate

/-- Modelled from the spec: `decodeAudioData` of the missing
`utils/audioUtils` module, as used at 24 kHz mono by the `onmessage` audio
block; "Fails with a `MalformedAudioError` if `bytes.length` is not a
multiple of `2 * channels`" — failure is `none`. -/
def decodeAudioData (bytes : List Nat) : Option DecodedClip :=
  if bytes.length % 2 = 0 then
    some { samples := bytesToSamples bytes, sampleRate := 24000, channels := 1 }
  else
    none

/-- The playback scheduler's mutable state: `nextStartTimeRef.current`,
`sourcesRef.current` (active `AudioBufferSourceNode`s, identified here by
ids) and the `isAISpeaking` flag. -/
structure SchedulerState where
  nextStartTime : ℚ
  sources : List Nat
  nextId : Nat
  speaking : Bool
  deriving DecidableEq, Repr

/-- One successfully scheduled clip: the device time at the call, the start
time passed to `s.start`, and the clip's duration. -/
structure SchedEntry where
  now : ℚ
  startAt : ℚ
  dur : ℚ
  deriving DecidableEq, Repr

/-- The `onmessage` audio block of `src/App.tsx` lines 138-153 /
`src/unnamed/part_001` lines 391-406, for one inbound frame of raw bytes
(after transport decode), given the output device's current time `now`:
sets the speaking flag, advances the clock to
`max nextStartTime currentTime`, then decodes; on success starts the
buffer at that clock value, advances the clock by the buffer's duration
and adds the source to the active set; on decode failure the remaining
statements do not run.  Returns the scheduled entry, or `none` when the
frame was dropped. -/
def enqueue (st : SchedulerState) (now : ℚ) (frame : List Nat) :
    SchedulerState × Option SchedEntry :=
  let clock := max st.nextStartTime now
  match decodeAudioData frame with
  | none => ({ st with speaking := true, nextStartTime := clock }, none)
  | some clip =>
      ({ nextStartTime := clock + clip.durationSeconds,
         sources := st.nextId :: st.sources,
         nextId := st.nextId + 1,
         speaking := true },
       some { now := now, startAt := clock, dur := clip.durationSeconds })

/-- Result of the `interrupted` handler: the state afterwards, the sources
that were forcibly stopped, and whether a speaking-ended signal was
actually emitted (the `isAISpeaking` flag transitioned from true to
false). -/
structure InterruptResult where
  state : SchedulerState
  stopped : List Nat
  spokeEnded : Bool
  deriving DecidableEq, Repr

/-- The `onmessage` interrupted handler of `src/App.tsx` lines 155-160 /
`src/unnamed/part_001` lines 408-413: stops every active source, clears
the set, resets `nextStartTime` to 0 and lowers the speaking flag. -/
def interrupt (st : SchedulerState) : InterruptResult :=
  { state := { nextStartTime := 0, sources := [], nextId := st.nextId,
               speaking := false },
    stopped := st.sources,
    spokeEnded := st.speaking }

/-- The scheduler is idle: no active sources and the clock at 0. -/
def SchedulerState.isIdle (st : SchedulerState) : Bool :=
  st.sources.isEmpty && st.nextStartTime == 0

/-- Run a sequence of enqueue calls (device time and frame per call),
collecting the scheduled entries in order. -/
def runEnqueues (st : SchedulerState) :
    List (ℚ × List Nat) → SchedulerState × List SchedEntry
  | [] => (st, [])
  | (now, f) :: rest =>
      let step := enqueue st now f
      let tail := runEnqueues step.1 rest
      (tail.1, step.2.toList ++ tail.2)

/-- One transcript history entry (`TranscriptionEntry` in `src/types.ts`);
the agent role is the literal string "aria". -/
structure TranscriptionEntry where
  role : String
  text : String
  timestamp : Nat
  deriving DecidableEq, Repr

/-- The turn transcript buffer `transcriptionBuffer.current` of
`src/App.tsx` / `src/unnamed/part_001`. -/
structure TranscriptionBuffer where
  user : String
  ai : String
  deriving DecidableEq, Repr

/-- JavaScript `String.prototype.trim`, as applied to the buffers at turn
completion: removes whitespace from both ends of the string. -/
def trimJS (s : String) : String :=
  ⟨((s.data.dropWhile Char.isWhitespace).reverse.dropWhile
      Char.isWhitespace).reverse⟩

/-- The `inputTranscription` handler: appends the fragment to the user
buffer. -/
def appendUser (b : TranscriptionBuffer) (t : String) : TranscriptionBuffer :=
  { b with user := b.user ++ t }

/-- The `outputTranscription` handler: appends the fragment to the agent
buffer. -/
def appendAgent (b : TranscriptionBuffer) (t : String) : TranscriptionBuffer :=
  { b with ai := b.ai ++ t }

/-- The `turnComplete` handler of `src/App.tsx` lines 125-136 /
`src/unnamed/part_001` lines 369-389: trims both buffers, appends to the
history one entry per non-empty side (user first, then agent, both stamped
with the current time), and resets the buffer.  Returns the buffer
afterwards, the entries appended to the history, and whether a history
emission happened (the code guards it by `if (u || a)`). -/
def turnComplete (b : TranscriptionBuffer) (now : Nat) :
    TranscriptionBuffer × List TranscriptionEntry × Bool :=
  let u := trimJS b.user
  let a := trimJS b.ai
  let entries :=
    (if u ≠ "" then [TranscriptionEntry.mk "user" u now] else []) ++
    (if a ≠ "" then [TranscriptionEntry.mk "aria" a now] else [])
  (⟨"", ""⟩, entries, !(u == "") || !(a == ""))

/-- Apply a sequence of transcription fragments in arrival order; `true`
tags a user (`inputTranscription`) fragment, `false` an agent
(`outputTranscription`) fragment. -/
def applyFrags (b : TranscriptionBuffer) :
    List (Bool × String) → TranscriptionBuffer
  | [] => b
  | (true, t) :: rest => applyFrags (appendUser b t) rest
  | (false, t) :: rest => applyFrags (appendAgent b t) rest

/-- Concatenation, in arrival order, of the fragments of one side. -/
def sideConcat (tag : Bool) : List (Bool × String) → String
  | [] => ""
  | (t, s) :: rest => (if t == tag then s else "") ++ sideConcat tag rest

/-- Truncation toward zero of a rational: the integer conversion JavaScript
applies to a number value before reducing it modulo 2^16 on assignment
into an `Int16Array` element. -/
def truncRat (x : ℚ) : Int := if 0 ≤ x then ⌊x⌋ else ⌈x⌉

/-- Reduction of an integer into the signed 16-bit range, the modulo-2^16
wrap of JavaScript `Int16Array` element conversion (ToInt16). -/
def wrapInt16 (t : Int) : Int :=
  let m := t % 65536
  if m < 32768 then m else m - 65536

/-- The capture-side sample conversion `int16[i] = data[i] * 32768` of
`proc.onaudioprocess` (`src/App.tsx` lines 100-114, `src/unnamed/part_001`
lines 342-349): the normalized float32 sample is scaled by 32768 (exact,
since scaling a float32 by a power of two is exact in double arithmetic)
and assigned into an `Int16Array`, which truncates toward zero and wraps
modulo 2^16. -/
def floatToInt16 (s : ℚ) : Int := wrapInt16 (truncRat (s * 32768))

/-- The capture-side conversion as the specification words it:
`round(s * 32768)` clipped to the signed 16-bit range.  Stated for
comparison with `floatToInt16`, the conversion the code performs. -/
def floatToInt16Claimed (s : ℚ) : Int :=
  max (-32768) (min 32767 (round (s * 32768)))

/-- Session-level state touched by `stopConversation`: the channel handle
`sessionRef`, the microphone stream `streamRef`, both audio contexts, the
queued playback sources `sourcesRef`, the connection status and the
speaking flag. -/
structure AppState where
  sessionOpen : Bool
  streamActive : Bool
  inputCtxOpen : Bool
  outputCtxOpen : Bool
  sources : List Nat
  status : ConnectionStatus
  isAISpeaking : Bool
  deriving DecidableEq, Repr

/-- The `stopConversation` callback (`src/App.tsx` lines 47-68,
`src/unnamed/part_001` lines 199-210): closes the channel and nulls the
ref, stops the stream tracks and nulls the ref, closes both audio
contexts, stops every queued source (inside try/catch) and clears the
set, sets the status to DISCONNECTED and lowers the speaking flag.  Every
step guards a possibly-null ref (`?.` or an `if`), so the function is
total from any state, including one in which the session never opened. -/
def stopConversation (_st : AppState) : AppState :=
  { sessionOpen := false, streamActive := false, inputCtxOpen := false,
    outputCtxOpen := false, sources := [],
    status := ConnectionStatus.DISCONNECTED, isAISpeaking := false }

/-- A saved session as persisted by `saveCurrentSession`
(`src/unnamed/part_001` lines 41-46). -/
structure SavedSession where
  id : String
  timestamp : Nat
  history : List TranscriptionEntry
  language : String
  deriving DecidableEq, Repr

/-- The `saveCurrentSession` callback (`src/unnamed/part_001` lines
212-231): returns early when the history is empty; otherwise builds a
session under the current session id (or a fresh id derived from the
clock), removes any previous entry with that id, prepends the new session
and truncates the list to 50 entries; the current id is set when it was
absent.  Returns the updated sessions list and current session id. -/
def saveCurrentSession (history : List TranscriptionEntry)
    (currentSessionId : Option String) (now : Nat) (lang : String)
    (sessions : List SavedSession) : List SavedSession × Option String :=
  if history = [] then (sessions, currentSessionId)
  else
    let sid := currentSessionId.getD (toString now)
    let newSession : SavedSession :=
      { id := sid, timestamp := now, history := history, language := lang }
    ((newSession :: sessions.filter (fun s => s.id ≠ sid)).take 50, some sid)

/-- Modelled from the spec: the base64 alphabet of `encodeBinary` /
`decodeBinary` in the missing `utils/audioUtils` module ("deterministic,
reversible, produces a transport-safe string from an arbitrary byte
sequence"). -/
def base64Chars : List Char :=
  ['A', 'B', 'C', 'D', 'E', 'F', 'G', 'H', 'I', 'J', 'K', 'L', 'M',
   'N', 'O', 'P', 'Q', 'R', 'S', 'T', 'U', 'V', 'W', 'X', 'Y', 'Z',
   'a', 'b', 'c', 'd', 'e', 'f', 'g', 'h', 'i', 'j', 'k', 'l', 'm',
   'n', 'o', 'p', 'q', 'r', 's', 't', 'u', 'v', 'w', 'x', 'y', 'z',
   '0', '1', '2', '3', '4', '5', '6', '7', '8', '9', '+', '/']

/-- Modelled from the spec: the character encoding one 6-bit group. -/
def sextetChar (n : Nat) : Char := base64Chars.getD n 'A'

/-- Modelled from the spec: the 6-bit group of one alphabet character. -/
def charSextet (c : Char) : Nat := base64Chars.indexOf c

/-- Modelled from the spec: base64 encoding of a byte sequence, three bytes
to four characters, with `=` padding on a trailing group of one or two
bytes. -/
def encodeChunks : List Nat → List Char
  | [] => []
  | [a] => [sextetChar (a / 4), sextetChar (a % 4 * 16), '=', '=']
  | [a, b] => [sextetChar (a / 4), sextetChar (a % 4 * 16 + b / 16),
               sextetChar (b % 16 * 4), '=']
  | a :: b :: c :: rest =>
      sextetChar (a / 4) :: sextetChar (a % 4 * 16 + b / 16) ::
        sextetChar (b % 16 * 4 + c / 64) :: sextetChar (c % 64) ::
        encodeChunks rest

/-- Modelled from the spec: `encodeBinary` of the missing
`utils/audioUtils` module, a deterministic transport-safe text encoding of
an arbitrary byte sequence. -/
def encodeBinary (bytes : List Nat) : String := ⟨encodeChunks bytes⟩

/-- Modelled from the spec: base64 decoding, four characters to three
bytes, honouring `=` padding in the final group; `none` on malformed
input. -/
def decodeChunks : List Char → Option (List Nat)
  | [] => some []
  | c1 :: c2 :: c3 :: c4 :: rest =>
      if c3 = '=' then
        if c4 = '=' ∧ rest = [] then
          some [charSextet c1 * 4 + charSextet c2 / 16]
        else none
      else if c4 = '=' then
        if rest = [] then
          some [charSextet c1 * 4 + charSextet c2 / 16,
                charSextet c2 % 16 * 16 + charSextet c3 / 4]
        else none
      else
        (decodeChunks rest).map
          (fun r => (charSextet c1 * 4 + charSextet c2 / 16) ::
            (charSextet c2 % 16 * 16 + charSextet c3 / 4) ::
            (charSextet c3 % 4 * 64 + charSextet c4) :: r)
  | _ => none

/-- Modelled from the spec: `decodeBinary` of the missing
`utils/audioUtils` module, the inverse of `encodeBinary`. -/
def decodeBinary (s : String) : Option (List Nat) := decodeChunks s.data

/-- A clip accepted by the decoder has nonnegative duration. -/
theorem decodeAudioData_dur_nonneg {f : List Nat} {clip : DecodedClip}
    (h : decodeAudioData f = some clip) : 0 ≤ clip.durationSeconds := by
  unfold decodeAudioData at h
  split at h
  · cases h
    unfold DecodedClip.durationSeconds
    positivity
  · cases h

/-- Claim C2: for every sequence of enqueue calls with no intervening
interrupt, the clock `nextStartTime` never decreases (over every interval
of the run), every scheduled entry starts no earlier than the initial
clock and no earlier than the output device's current time at its call,
has nonnegative duration and ends (start plus duration) no later than the
final clock, and consecutive scheduled clips do not overlap: each start is
at least the previous start plus the previous duration. -/
theorem enqueue_run_clock_monotone_no_overlap (st : SchedulerState)
    (evs : List (ℚ × List Nat)) :
    st.nextStartTime ≤ (runEnqueues st evs).1.nextStartTime ∧
    (∀ e ∈ (runEnqueues st evs).2,
        st.nextStartTime ≤ e.startAt ∧ e.now ≤ e.startAt ∧ 0 ≤ e.dur ∧
        e.startAt + e.dur ≤ (runEnqueues st evs).1.nextStartTime) ∧
    List.Chain' (fun p q => p.startAt + p.dur ≤ q.startAt)
      (runEnqueues st evs).2 := by
  induction evs generalizing st with
  | nil => simp [runEnqueues]
  | cons ev rest ih =>
      obtain ⟨now, f⟩ := ev
      rcases hd : decodeAudioData f with _ | clip
      · have hrun : runEnqueues st ((now, f) :: rest) =
            runEnqueues (enqueue st now f).1 rest := by
          simp [runEnqueues, enqueue, hd]
        have hst' : (enqueue st now f).1.nextStartTime =
            max st.nextStartTime now := by
          simp [enqueue, hd]
        obtain ⟨ih1, ih2, ih3⟩ := ih (enqueue st now f).1
        have hle : st.nextStartTime ≤ (enqueue st now f).1.nextStartTime := by
          rw [hst']; exact le_max_left _ _
        refine ⟨?_, ?_, ?_⟩
        · rw [hrun]; exact le_trans hle ih1
        · rw [hrun]
          intro e he
          obtain ⟨h1, h2, h3, h4⟩ := ih2 e he
          exact ⟨le_trans hle h1, h2, h3, h4⟩
        · rw [hrun]; exact ih3
      · have hdur : 0 ≤ clip.durationSeconds := decodeAudioData_dur_nonneg hd
        have hrun : runEnqueues st ((now, f) :: rest) =
            ((runEnqueues (enqueue st now f).1 rest).1,
              { now := now, startAt := max st.nextStartTime now,
                dur := clip.durationSeconds } ::
                (runEnqueues (enqueue st now f).1 rest).2) := by
          simp [runEnqueues, enqueue, hd]
        have hst' : (enqueue st now f).1.nextStartTime =
            max st.nextStartTime now + clip.durationSeconds := by
          simp [enqueue, hd]
        obtain ⟨ih1, ih2, ih3⟩ := ih (enqueue st now f).1
        have hstep : st.nextStartTime ≤ (enqueue st now f).1.nextStartTime := by
          rw [hst']
          exact le_trans (le_max_left _ _) (le_add_of_nonneg_right hdur)
        refine ⟨?_, ?_, ?_⟩
        · rw [hrun]; exact le_trans hstep ih1
        · rw [hrun]
          intro e he
          rcases List.mem_cons.mp he with h | h
          · subst h
            refine ⟨le_max_left _ _, le_max_right _ _, hdur, ?_⟩
            simp only []
            rw [← hst']
            exact ih1
          · obtain ⟨h1, h2, h3, h4⟩ := ih2 e h
            exact ⟨le_trans hstep h1, h2, h3, h4⟩
        · rw [hrun]
          refine List.chain'_cons'.mpr ⟨?_, ih3⟩
          intro q hq
          have hmem : q ∈ (runEnqueues (enqueue st now f).1 rest).2 :=
            List.mem_of_mem_head? hq
          obtain ⟨h1, _, _, _⟩ := ih2 q hmem
          rw [hst'] at h1
          exact h1

end MindV

namespace MindV

/-- Claim C1: for every inbound audio frame handled by `enqueue` (one the decoder
accepts), the clip's scheduled start time equals
`max nextStartTime currentTime`, and immediately afterwards
`nextStartTime = startAt + durationSeconds`. -/
theorem enqueue_start_at_max_and_advances (st : SchedulerState) (now : ℚ)
    (frame : List Nat) (clip : DecodedClip)
    (h : decodeAudioData frame = some clip) :
    (enqueue st now frame).2 =
      some { now := now, startAt := max st.nextStartTime now,
             dur := clip.durationSeconds } ∧
    (enqueue st now frame).1.nextStartTime =
      max st.nextStartTime now + clip.durationSeconds := by
  simp [enqueue, h]

/-- Witness for C1 at a concrete two-byte frame. -/
theorem enqueue_start_at_max_and_advances_witness :
    ((enqueue (⟨5, [], 0, false⟩ : SchedulerState) 7 [0, 0]).2 =
      some { now := 7, startAt := max 5 7, dur := (1 : ℚ) / 24000 } ∧
    (enqueue (⟨5, [], 0, false⟩ : SchedulerState) 7 [0, 0]).1.nextStartTime =
      max 5 7 + (1 : ℚ) / 24000) := by
  have h : decodeAudioData [0, 0] =
      some { samples := [(0 : ℚ)], sampleRate := 24000, channels := 1 } := by
    norm_num [decodeAudioData, bytesToSamples, int16OfLE]
  have := enqueue_start_at_max_and_advances
    (⟨5, [], 0, false⟩ : SchedulerState)
    7 [0, 0] { samples := [(0 : ℚ)], sampleRate := 24000, channels := 1 } h
  simpa [DecodedClip.durationSeconds] using this

/-- Claim C3 is false as stated: at `nextStartTime = 0` and device time 1, a
malformed single-byte frame is dropped, yet `nextStartTime` afterwards is
1, not its pre-call value 0 — the code advances the clock to
`max nextStartTime currentTime` before decoding. -/
theorem enqueue_decode_failure_counterexample :
    (enqueue (⟨0, [], 0, false⟩ : SchedulerState) 1 [1]).2 = none ∧
    (enqueue (⟨0, [], 0, false⟩ : SchedulerState) 1 [1]).1.nextStartTime = 1 ∧
    (1 : ℚ) ≠ 0 := by
  norm_num [enqueue, decodeAudioData]

/-- Claim C3 amended: if decoding one inbound frame fails (malformed byte
length), the frame is skipped (no clip scheduled, active set unchanged),
and after the failed call `nextStartTime` equals the maximum of its
pre-call value and the output device's current time at the call (the code
performs this advance before decoding); the stream continues, and a
subsequent valid frame schedules correctly at the maximum of that clock
value and the device time of its own call. -/
theorem enqueue_decode_failure_skips_frame (st : SchedulerState) (now : ℚ)
    (frame : List Nat) (h : decodeAudioData frame = none) :
    (enqueue st now frame).2 = none ∧
    (enqueue st now frame).1.sources = st.sources ∧
    (enqueue st now frame).1.nextStartTime = max st.nextStartTime now ∧
    (∀ now2 frame2 clip2, decodeAudioData frame2 = some clip2 →
      (enqueue (enqueue st now frame).1 now2 frame2).2 =
        some { now := now2,
               startAt := max (max st.nextStartTime now) now2,
               dur := clip2.durationSeconds }) := by
  refine ⟨by simp [enqueue, h], by simp [enqueue, h], by simp [enqueue, h], ?_⟩
  intro now2 frame2 clip2 h2
  simp [enqueue, h, h2]

/-- Witness for the amended Claim C3 at a concrete malformed frame and a
concrete subsequent valid frame. -/
theorem enqueue_decode_failure_skips_frame_witness :
    (enqueue (⟨2, [7], 8, true⟩ : SchedulerState) 3 [0, 1, 2]).2 = none ∧
    (enqueue (⟨2, [7], 8, true⟩ : SchedulerState) 3 [0, 1, 2]).1.sources = [7] ∧
    (enqueue (⟨2, [7], 8, true⟩ : SchedulerState) 3 [0, 1, 2]).1.nextStartTime = max 2 3 ∧
    (enqueue (enqueue (⟨2, [7], 8, true⟩ : SchedulerState) 3 [0, 1, 2]).1 4 [0, 0]).2 =
      some { now := 4, startAt := max (max 2 3) 4,
             dur := (1 : ℚ) / 24000 } := by
  have h : decodeAudioData [0, 1, 2] = none := by
    norm_num [decodeAudioData]
  have hv : decodeAudioData [0, 0] =
      some { samples := [(0 : ℚ)], sampleRate := 24000, channels := 1 } := by
    norm_num [decodeAudioData, bytesToSamples, int16OfLE]
  have := enqueue_decode_failure_skips_frame
    (⟨2, [7], 8, true⟩ : SchedulerState) 3 [0, 1, 2] h
  obtain ⟨h1, h2, h3, h4⟩ := this
  refine ⟨h1, h2, h3, ?_⟩
  have := h4 4 [0, 0]
    { samples := [(0 : ℚ)], sampleRate := 24000, channels := 1 } hv
  simpa [DecodedClip.durationSeconds] using this

/-- Claim C4: the interrupted handler forcibly stops exactly the sources of
the active set, clears the set, resets `nextStartTime` to 0 and leaves the
scheduler idle with the speaking flag down; the speaking-ended signal is
emitted exactly on an actual speaking-to-silent transition (so calling
twice in a row, or with an empty active set, emits it at most once); and a
second call in a row is a no-op on the state, stops nothing and emits
nothing. -/
theorem interrupt_resets_and_idempotent (st : SchedulerState) :
    (interrupt st).stopped = st.sources ∧
    (interrupt st).state.sources = [] ∧
    (interrupt st).state.nextStartTime = 0 ∧
    (interrupt st).state.speaking = false ∧
    (interrupt st).state.isIdle = true ∧
    (interrupt st).spokeEnded = st.speaking ∧
    interrupt (interrupt st).state =
      { state := (interrupt st).state, stopped := [], spokeEnded := false } ∧
    (st.sources = [] →
      (interrupt st).stopped = [] ∧ (interrupt st).state.isIdle = true) := by
  refine ⟨rfl, rfl, rfl, rfl, ?_, rfl, ?_, ?_⟩
  · simp [interrupt, SchedulerState.isIdle]
  · simp [interrupt]
  · intro h
    exact ⟨h, by simp [interrupt, SchedulerState.isIdle]⟩

/-- Witness for Claim C4 at a concrete speaking state with an empty active
set. -/
theorem interrupt_resets_and_idempotent_witness :
    (interrupt (⟨9, [], 4, true⟩ : SchedulerState)).stopped = [] ∧
    (interrupt (⟨9, [], 4, true⟩ : SchedulerState)).state.nextStartTime = 0 ∧
    (interrupt (⟨9, [], 4, true⟩ : SchedulerState)).state.isIdle = true ∧
    (interrupt (⟨9, [], 4, true⟩ : SchedulerState)).spokeEnded = true := by
  have := interrupt_resets_and_idempotent
    (⟨9, [], 4, true⟩ : SchedulerState)
  obtain ⟨-, -, h3, -, h5, h6, -, h8⟩ := this
  exact ⟨(h8 rfl).1, h3, h5, h6⟩

end MindV

namespace MindV

/-- The buffer after a fragment sequence holds, per side, the base value
followed by the concatenation of that side's fragments in arrival
order. -/
theorem applyFrags_fields (b : TranscriptionBuffer)
    (frags : List (Bool × String)) :
    (applyFrags b frags).user = b.user ++ sideConcat true frags ∧
    (applyFrags b frags).ai = b.ai ++ sideConcat false frags := by
  induction frags generalizing b with
  | nil => simp [applyFrags, sideConcat]
  | cons p rest ih =>
      obtain ⟨tag, t⟩ := p
      cases tag with
      | true =>
          obtain ⟨ih1, ih2⟩ := ih (appendUser b t)
          refine ⟨?_, ?_⟩
          · rw [show applyFrags b ((true, t) :: rest) =
                applyFrags (appendUser b t) rest from rfl, ih1]
            simp [appendUser, sideConcat, String.append_assoc]
          · rw [show applyFrags b ((true, t) :: rest) =
                applyFrags (appendUser b t) rest from rfl, ih2]
            simp [appendUser, sideConcat]
      | false =>
          obtain ⟨ih1, ih2⟩ := ih (appendAgent b t)
          refine ⟨?_, ?_⟩
          · rw [show applyFrags b ((false, t) :: rest) =
                applyFrags (appendAgent b t) rest from rfl, ih1]
            simp [appendAgent, sideConcat]
          · rw [show applyFrags b ((false, t) :: rest) =
                applyFrags (appendAgent b t) rest from rfl, ih2]
            simp [appendAgent, sideConcat, String.append_assoc]

/-- Claim C5: for any interleaving of user and agent fragments within one
turn, the buffer at flush time holds each side's fragments concatenated in
arrival order; the flush on turn completion trims both sides, emits at
most one entry per non-empty side with the user entry before the agent
entry, and resets both buffers to empty; in particular the fragment
sequence user "a", agent "b", user "c" flushes to exactly the two entries
user "ac" then agent "b". -/
theorem turn_flush_user_then_agent (frags : List (Bool × String)) (now : Nat) :
    (applyFrags ⟨"", ""⟩ frags).user = sideConcat true frags ∧
    (applyFrags ⟨"", ""⟩ frags).ai = sideConcat false frags ∧
    (turnComplete (applyFrags ⟨"", ""⟩ frags) now).1 = ⟨"", ""⟩ ∧
    (turnComplete (applyFrags ⟨"", ""⟩ frags) now).2.1 =
      (if trimJS (sideConcat true frags) ≠ "" then
        [TranscriptionEntry.mk "user" (trimJS (sideConcat true frags)) now]
       else []) ++
      (if trimJS (sideConcat false frags) ≠ "" then
        [TranscriptionEntry.mk "aria" (trimJS (sideConcat false frags)) now]
       else []) ∧
    turnComplete (applyFrags ⟨"", ""⟩ [(true, "a"), (false, "b"), (true, "c")])
        now =
      (⟨"", ""⟩,
       [TranscriptionEntry.mk "user" "ac" now,
        TranscriptionEntry.mk "aria" "b" now], true) := by
  obtain ⟨hu, ha⟩ := applyFrags_fields ⟨"", ""⟩ frags
  have hu' : (applyFrags ⟨"", ""⟩ frags).user = sideConcat true frags := by
    rw [hu]; exact String.empty_append _
  have ha' : (applyFrags ⟨"", ""⟩ frags).ai = sideConcat false frags := by
    rw [ha]; exact String.empty_append _
  refine ⟨hu', ha', ?_, ?_, ?_⟩
  · rfl
  · simp only [turnComplete, hu', ha']
  · have hx : applyFrags ⟨"", ""⟩ [(true, "a"), (false, "b"), (true, "c")] =
        ⟨"ac", "b"⟩ := by decide
    rw [hx]
    have h1 : trimJS "ac" = "ac" := by decide
    have h2 : trimJS "b" = "b" := by decide
    simp [turnComplete, h1, h2]

/-- Claim C6: if both transcript buffers trim to the empty string when the
turn-complete signal arrives, the flush emits no entries and performs no
history emission (an expected no-op, not an error), and the buffers are
still reset to empty. -/
theorem turn_flush_empty_no_emission (b : TranscriptionBuffer) (now : Nat)
    (hu : trimJS b.user = "") (ha : trimJS b.ai = "") :
    turnComplete b now = (⟨"", ""⟩, [], false) := by
  simp [turnComplete, hu, ha]

/-- Witness for Claim C6 at a whitespace-only buffer. -/
theorem turn_flush_empty_no_emission_witness :
    trimJS " " = "" ∧ trimJS "" = "" ∧
    turnComplete ⟨" ", ""⟩ 3 = (⟨"", ""⟩, [], false) :=
  ⟨by decide, by decide,
   turn_flush_empty_no_emission ⟨" ", ""⟩ 3 (by decide) (by decide)⟩

/-- Claim C7 is false as stated: the spec maps sample 1.0 to
`round(1.0 * 32768)` clipped into the signed 16-bit range, i.e. 32767,
but the code's `Int16Array` assignment wraps, mapping 1.0 to -32768; the
conversion also truncates rather than rounds: the sample 1/65536 (whose
scaled value is 1/2) maps to 0 in the code but to 1 under the spec's
rounding. -/
theorem floatToInt16_counterexample :
    floatToInt16 1 = -32768 ∧ floatToInt16Claimed 1 = 32767 ∧
    floatToInt16 1 ≠ floatToInt16Claimed 1 ∧
    floatToInt16 (1 / 65536) = 0 ∧ floatToInt16Claimed (1 / 65536) = 1 := by
  have e1 : ((1 : ℚ) * 32768) = ((32768 : ℤ) : ℚ) := by norm_num
  have e2 : ((1 : ℚ) / 65536 * 32768) = (1 : ℚ) / 2 := by norm_num
  have f1 : floatToInt16 1 = -32768 := by
    rw [floatToInt16, e1, truncRat, if_pos (by positivity), Int.floor_intCast]
    norm_num [wrapInt16]
  have f2 : floatToInt16Claimed 1 = 32767 := by
    rw [floatToInt16Claimed, e1, round_intCast]
    norm_num
  have f3 : floatToInt16 (1 / 65536) = 0 := by
    rw [floatToInt16, e2, truncRat, if_pos (by positivity)]
    norm_num [wrapInt16]
  have f4 : floatToInt16Claimed (1 / 65536) = 1 := by
    rw [floatToInt16Claimed, e2]
    norm_num [round_eq]
  exact ⟨f1, f2, by rw [f1, f2]; decide, f3, f4⟩

/-- Claim C7 amended: the capture-side conversion maps every normalized
sample `s` in [-1, 1) to the truncation toward zero of `s * 32768`, which
lies inside the signed 16-bit range (no wrapping occurs there, and
s = -1.0 maps to -32768); the conversion wraps modulo 2^16 rather than
clipping, so s = 1.0 maps to -32768, not the maximum representable
value. -/
theorem floatToInt16_trunc_in_range (s : ℚ) (h1 : -1 ≤ s) (h2 : s < 1) :
    floatToInt16 s = truncRat (s * 32768) ∧
    -32768 ≤ floatToInt16 s ∧ floatToInt16 s ≤ 32767 := by
  have hlo : (-32768 : ℚ) ≤ s * 32768 := by nlinarith
  have hhi : s * 32768 < 32768 := by nlinarith
  have htr : -32768 ≤ truncRat (s * 32768) ∧
      truncRat (s * 32768) ≤ 32767 := by
    rw [truncRat]
    split
    · constructor
      · have : (0 : ℤ) ≤ ⌊s * 32768⌋ := Int.floor_nonneg.mpr (by assumption)
        omega
      · have : ⌊s * 32768⌋ < (32768 : ℤ) := by
          rw [Int.floor_lt]
          exact_mod_cast hhi
        omega
    · constructor
      · have hc : ((-32768 : ℤ) : ℚ) ≤ s * 32768 := by exact_mod_cast hlo
        have : ((-32768 : ℤ) : ℚ) ≤ (⌈s * 32768⌉ : ℚ) :=
          le_trans hc (Int.le_ceil _)
        exact_mod_cast this
      · have hneg : s * 32768 ≤ 0 := by
          rename_i hx
          exact le_of_lt (lt_of_not_ge hx)
        have : ⌈s * 32768⌉ ≤ (0 : ℤ) := Int.ceil_le.mpr (by exact_mod_cast hneg)
        omega
  have hwrap : wrapInt16 (truncRat (s * 32768)) = truncRat (s * 32768) := by
    rw [wrapInt16]
    omega
  rw [floatToInt16, hwrap]
  exact ⟨rfl, htr.1, htr.2⟩

/-- Witness for the amended Claim C7 at the concrete sample 1/2. -/
theorem floatToInt16_trunc_in_range_witness :
    (-1 : ℚ) ≤ 1 / 2 ∧ (1 : ℚ) / 2 < 1 ∧
    floatToInt16 (1 / 2) = truncRat ((1 / 2) * 32768) ∧
    -32768 ≤ floatToInt16 (1 / 2) ∧ floatToInt16 (1 / 2) ≤ 32767 := by
  have h := floatToInt16_trunc_in_range (1 / 2) (by norm_num) (by norm_num)
  exact ⟨by norm_num, by norm_num, h.1, h.2.1, h.2.2⟩

/-- Every byte below 64 has its alphabet character decoded back to
itself. -/
theorem charSextet_sextetChar : ∀ n : Nat, n < 64 →
    charSextet (sextetChar n) = n := by decide

/-- No alphabet character of an in-range 6-bit group is the padding
character. -/
theorem sextetChar_ne_pad : ∀ n : Nat, n < 64 → sextetChar n ≠ '=' := by
  decide

/-- Decoding inverts encoding chunk by chunk on byte sequences. -/
theorem decode_encode_chunks : ∀ bytes : List Nat,
    (∀ x ∈ bytes, x < 256) → decodeChunks (encodeChunks bytes) = some bytes
  | [], _ => rfl
  | [a], h => by
      have ha : a < 256 := h a (by simp)
      have h1 := charSextet_sextetChar (a / 4) (by omega)
      have h2 := charSextet_sextetChar (a % 4 * 16) (by omega)
      simp [encodeChunks, decodeChunks, h1, h2]
      omega
  | [a, b], h => by
      have ha : a < 256 := h a (by simp)
      have hb : b < 256 := h b (by simp)
      have h1 := charSextet_sextetChar (a / 4) (by omega)
      have h2 := charSextet_sextetChar (a % 4 * 16 + b / 16) (by omega)
      have h3 := charSextet_sextetChar (b % 16 * 4) (by omega)
      have hne := sextetChar_ne_pad (b % 16 * 4) (by omega)
      simp [encodeChunks, decodeChunks, hne, h1, h2, h3]
      constructor
      · omega
      · omega
  | [a, b, c], h => by
      have ha : a < 256 := h a (by simp)
      have hb : b < 256 := h b (by simp)
      have hc : c < 256 := h c (by simp)
      have h1 := charSextet_sextetChar (a / 4) (by omega)
      have h2 := charSextet_sextetChar (a % 4 * 16 + b / 16) (by omega)
      have h3 := charSextet_sextetChar (b % 16 * 4 + c / 64) (by omega)
      have h4 := charSextet_sextetChar (c % 64) (by omega)
      have hne3 := sextetChar_ne_pad (b % 16 * 4 + c / 64) (by omega)
      have hne4 := sextetChar_ne_pad (c % 64) (by omega)
      simp [encodeChunks, decodeChunks, hne3, hne4, h1, h2, h3, h4]
      refine ⟨by omega, by omega, by omega⟩
  | a :: b :: c :: d :: rest, h => by
      have ha : a < 256 := h a (by simp)
      have hb : b < 256 := h b (by simp)
      have hc : c < 256 := h c (by simp)
      have h1 := charSextet_sextetChar (a / 4) (by omega)
      have h2 := charSextet_sextetChar (a % 4 * 16 + b / 16) (by omega)
      have h3 := charSextet_sextetChar (b % 16 * 4 + c / 64) (by omega)
      have h4 := charSextet_sextetChar (c % 64) (by omega)
      have hne3 := sextetChar_ne_pad (b % 16 * 4 + c / 64) (by omega)
      have hne4 := sextetChar_ne_pad (c % 64) (by omega)
      have ih := decode_encode_chunks (d :: rest)
        (fun x hx => h x (by simp at hx ⊢; tauto))
      simp [encodeChunks, decodeChunks, hne3, hne4, h1, h2, h3, h4, ih]
      refine ⟨by omega, by omega, by omega⟩

/-- Claim C8: for every byte sequence, decoding the text produced by the
binary-to-text encoder returns exactly the original bytes (the encoder, a
function, is deterministic). -/
theorem decodeBinary_encodeBinary (bytes : List Nat)
    (h : ∀ x ∈ bytes, x < 256) :
    decodeBinary (encodeBinary bytes) = some bytes :=
  decode_encode_chunks bytes h

/-- Witness for Claim C8 at a concrete byte sequence. -/
theorem decodeBinary_encodeBinary_witness :
    (∀ x ∈ [0, 255, 77, 10], x < 256) ∧
    decodeBinary (encodeBinary [0, 255, 77, 10]) = some [0, 255, 77, 10] :=
  ⟨by decide, decodeBinary_encodeBinary [0, 255, 77, 10] (by decide)⟩

/-- Claim C9: session teardown completes from every state (including one
that never fully opened, and repeated calls — it is idempotent), and
afterwards the active source set is empty, the speaking flag is false and
the connection status is DISCONNECTED. -/
theorem stopConversation_safe (st : AppState) :
    (stopConversation st).sources = [] ∧
    (stopConversation st).isAISpeaking = false ∧
    (stopConversation st).status = ConnectionStatus.DISCONNECTED ∧
    stopConversation (stopConversation st) = stopConversation st :=
  ⟨rfl, rfl, rfl, rfl⟩

/-- Claim C10: saving with an empty history leaves the sessions list (and
current id) unchanged; after a completed save with non-empty history the
list holds at most 50 entries, the just-saved session is its first
element, and pairwise-distinct session ids are preserved. -/
theorem saveCurrentSession_invariants (history : List TranscriptionEntry)
    (curId : Option String) (now : Nat) (lang : String)
    (sessions : List SavedSession) :
    (history = [] →
      saveCurrentSession history curId now lang sessions =
        (sessions, curId)) ∧
    (history ≠ [] →
      (saveCurrentSession history curId now lang sessions).1.length ≤ 50 ∧
      (saveCurrentSession history curId now lang sessions).1.head? =
        some { id := curId.getD (toString now), timestamp := now,
               history := history, language := lang } ∧
      ((sessions.map SavedSession.id).Nodup →
        ((saveCurrentSession history curId now lang sessions).1.map
          SavedSession.id).Nodup)) := by
  constructor
  · intro h
    simp [saveCurrentSession, h]
  · intro h
    simp only [saveCurrentSession, if_neg h]
    set sid := curId.getD (toString now) with hsid
    set ns : SavedSession :=
      { id := sid, timestamp := now, history := history, language := lang }
      with hns
    have h50 : (50 : Nat) = 49 + 1 := rfl
    refine ⟨List.length_take_le _ _, ?_, ?_⟩
    · rw [h50, List.take_succ_cons]
      rfl
    · intro hnd
      have hsub : ((sessions.filter (fun s => s.id ≠ sid)).map
          SavedSession.id).Sublist (sessions.map SavedSession.id) :=
        List.Sublist.map _ (List.filter_sublist _)
      have hnd' : ((sessions.filter (fun s => s.id ≠ sid)).map
          SavedSession.id).Nodup := hnd.sublist hsub
      have hnotmem : sid ∉ (sessions.filter (fun s => s.id ≠ sid)).map
          SavedSession.id := by
        intro hmem
        obtain ⟨s, hs, hid⟩ := List.mem_map.mp hmem
        have hf : s.id ≠ sid :=
          of_decide_eq_true (List.mem_filter.mp hs).2
        exact hf hid
      have hall : ((ns :: sessions.filter (fun s => s.id ≠ sid)).map
          SavedSession.id).Nodup := by
        rw [List.map_cons]
        exact List.nodup_cons.mpr ⟨hnotmem, hnd'⟩
      exact hall.sublist (List.Sublist.map _ (List.take_sublist _ _))

/-- Witness for Claim C10 at a concrete one-entry history and an empty
sessions list. -/
theorem saveCurrentSession_invariants_witness :
    ([TranscriptionEntry.mk "user" "hi" 0] ≠ ([] : List TranscriptionEntry)) ∧
    (saveCurrentSession [TranscriptionEntry.mk "user" "hi" 0] none 5 "en"
      []).1.length ≤ 50 ∧
    ((([] : List SavedSession)).map SavedSession.id).Nodup ∧
    ((saveCurrentSession [TranscriptionEntry.mk "user" "hi" 0] none 5 "en"
      []).1.map SavedSession.id).Nodup := by
  have h := (saveCurrentSession_invariants
    [TranscriptionEntry.mk "user" "hi" 0] none 5 "en" []).2 (by simp)
  exact ⟨by simp, h.1, by simp, h.2.2 (by simp)⟩

end MindV
